import Mathlib

/-!
Verification development for the `intro-to-ai-agents` repository.

The repository builds ReAct tool-calling agents on top of an external
orchestration framework. We shallowly embed:

* the math tools `add`, `multiply`, `divide` of `notebooks/2_math-agent.ipynb`;
* the tool registry / dispatcher and the ReAct loop driver (the concrete
  implementation lives in the external framework and in
  `src/examples/agents/react/agent.py`, which is referenced by the notebooks
  but absent from the sources; those parts are modelled from the
  specification, as marked in the doc comments);
* the `retrieve` tool and the ingestion metadata normalization of
  `notebooks/3_rag-agent.ipynb`.

Python machine arithmetic on the tool inputs is modelled by `Int`
(Python ints are unbounded). Python float true division of ints is
modelled faithfully: CPython computes the IEEE-754 binary64 value nearest
to the exact quotient (round-to-nearest, ties-to-even, with subnormals
and underflow to zero) and raises OverflowError when that value falls
outside the double range; doubles are carried as their exact rational
values in `ℚ`, rounding is `roundToDouble`, and the message rendering
uses `pyFloatRepr`, the shortest decimal string that round-trips to the
same double, as CPython's float repr prints it. The one representational
gap: `ℚ` has no negative zero, so the doubles 0.0 and -0.0 coincide in
the model (no claim exercises signed zeros).
-/

instance {ε α : Type} [DecidableEq ε] [DecidableEq α] : DecidableEq (Except ε α) := fun x y =>
  match x, y with
  | Except.ok a, Except.ok b =>
    if h : a = b then Decidable.isTrue (by rw [h])
    else Decidable.isFalse (by intro hc; cases hc; exact h rfl)
  | Except.error a, Except.error b =>
    if h : a = b then Decidable.isTrue (by rw [h])
    else Decidable.isFalse (by intro hc; cases hc; exact h rfl)
  | Except.ok _, Except.error _ => Decidable.isFalse (by intro hc; cases hc)
  | Except.error _, Except.ok _ => Decidable.isFalse (by intro hc; cases hc)

/-- An argument mapping supplied by the model for one tool call
(Python keyword arguments: parameter name to integer value). -/
abbrev Args := List (String × Int)

/-- The raw secondary payload of a `content_and_artifact` tool
(`int` results of `add`/`multiply`, `float` result of `divide`). -/
inductive Artifact where
  | intA (n : Int)
  | ratA (q : ℚ)
deriving DecidableEq, Repr

/-- One tool-call request inside an assistant message: tool name,
argument mapping and call identifier. -/
structure ToolCall where
  name : String
  args : Args
  callId : String
deriving DecidableEq, Repr

/-- A message of the conversation state: tagged variant over
system / human / assistant / tool-result, as in the spec's data model.
An assistant message carries its ordered list of requested tool calls; a
tool-result message carries a back-reference to the originating call
identifier and an optional artifact. -/
inductive Message where
  | system (content : String)
  | human (content : String)
  | assistant (content : String) (toolCalls : List ToolCall)
  | toolResult (content : String) (toolCallId : String) (artifact : Option Artifact)
deriving DecidableEq, Repr

/-- Look up one keyword argument in an argument mapping. -/
def getArg (args : Args) (key : String) : Option Int :=
  (args.find? (fun kv => kv.fst == key)).map Prod.snd

/-- `add` from `2_math-agent.ipynb`:
computes the sum and a summary message "Adding a and b gives result". -/
def add (a b : Int) : String × Int :=
  let result := a + b
  ("Adding " ++ toString a ++ " and " ++ toString b ++ " gives " ++ toString result, result)

/-- `multiply` from `2_math-agent.ipynb`:
computes the product and a summary message "Multiplying a and b gives result". -/
def multiply (a b : Int) : String × Int :=
  let result := a * b
  ("Multiplying " ++ toString a ++ " and " ++ toString b ++ " gives " ++ toString result, result)

set_option maxRecDepth 8000

set_option exponentiation.threshold 2000

/-- Round a nonnegative fraction `num / den` to the nearest natural
number, ties to even. -/
def rndNatHalfEven (num den : Nat) : Nat :=
  let q0 := num / den
  let r := num % den
  if 2 * r < den then q0
  else if den < 2 * r then q0 + 1
  else if q0 % 2 = 0 then q0 else q0 + 1

/-- Floor of the base-2 logarithm of `n` (0 for `n = 0`), computed by a
structural descent so that concrete evaluations reduce in the kernel
(`Nat.log2` of the library is defined by well-founded recursion, which
the kernel does not unfold). -/
def log2Fuel : Nat → Nat → Nat
  | 0, _ => 0
  | f + 1, n =>
    if 2 ^ 64 ≤ n then 64 + log2Fuel f (n >>> 64)
    else if 2 ≤ n then 1 + log2Fuel f (n / 2)
    else 0

/-- Floor of the base-2 logarithm of a natural number. -/
def natLog2 (n : Nat) : Nat := log2Fuel n n

/-- Decides `2 ^ e ≤ n / d` for positive naturals `n`, `d`. -/
def pow2LeRat (n d : Nat) (e : Int) : Bool :=
  if 0 ≤ e then decide (d * 2 ^ e.toNat ≤ n) else decide (d ≤ n * 2 ^ (-e).toNat)

/-- Floor of the base-2 logarithm of the positive rational `n / d`. -/
def floorLog2Rat (n d : Nat) : Int :=
  let e0 : Int := (natLog2 n : Int) - (natLog2 d : Int)
  if pow2LeRat n d e0 then e0 else e0 - 1

/-- IEEE-754 binary64 rounding of an exact rational: the representable
double nearest to `q` (round-to-nearest, ties-to-even; subnormals below
`2 ^ (-1022)` round to multiples of `2 ^ (-1074)`, underflowing to zero),
or `none` when the rounded magnitude reaches `2 ^ 1024` — the overflow
CPython surfaces as `OverflowError`. The double is returned as its exact
rational value; the sign of a zero result is not carried (`ℚ` has no
negative zero). -/
def roundToDouble (q : ℚ) : Option ℚ :=
  if q.num = 0 then some 0
  else
    let n := q.num.natAbs
    let d := q.den
    let e := floorLog2Rat n d
    let k : Int := max (e - 52) (-1074)
    let mag : Option ℚ :=
      if 0 ≤ k then
        let m := rndNatHalfEven n (d * 2 ^ k.toNat)
        if 2 ^ 1024 ≤ m * 2 ^ k.toNat then none
        else some (mkRat (Int.ofNat (m * 2 ^ k.toNat)) 1)
      else
        let m := rndNatHalfEven (n * 2 ^ (-k).toNat) d
        if 2 ^ (1024 + (-k).toNat) ≤ m then none
        else some (mkRat (Int.ofNat m) (2 ^ (-k).toNat))
    match mag with
    | none => none
    | some v => some (if q.num < 0 then -v else v)

/-- Decides `10 ^ e ≤ n / d` for positive naturals `n`, `d`. -/
def pow10LeRat (n d : Nat) (e : Int) : Bool :=
  if 0 ≤ e then decide (d * 10 ^ e.toNat ≤ n) else decide (d ≤ n * 10 ^ (-e).toNat)

/-- Floor of the base-10 logarithm of the positive rational `n / d`: the
base-2 estimate scaled by 30103/100000 is within one of the answer and is
corrected by direct comparison. -/
def floorLog10Rat (n d : Nat) : Int :=
  let g0 : Int := Int.fdiv (floorLog2Rat n d * 30103) 100000
  let g1 := if pow10LeRat n d (g0 + 1) then g0 + 1 else g0
  let g2 := if pow10LeRat n d (g1 + 1) then g1 + 1 else g1
  if pow10LeRat n d g2 then g2 else g2 - 1

/-- The positive rational `n / d` (with `10 ^ d10 ≤ n / d < 10 ^ (d10+1)`)
correctly rounded to `p` significant decimal digits: the digit block and
the power-of-ten exponent of its last digit, renormalized when rounding
carries into an extra digit. -/
def decimalCandidate (n d : Nat) (d10 : Int) (p : Nat) : Nat × Int :=
  let s : Int := d10 + 1 - (p : Int)
  let dg :=
    if 0 ≤ s then rndNatHalfEven n (d * 10 ^ s.toNat)
    else rndNatHalfEven (n * 10 ^ (-s).toNat) d
  if dg = 10 ^ p then (10 ^ (p - 1), s + 1) else (dg, s)

/-- The exact rational value of a decimal candidate `dg * 10 ^ s`. -/
def candidateValue (dg : Nat) (s : Int) : ℚ :=
  if 0 ≤ s then mkRat (Int.ofNat (dg * 10 ^ s.toNat)) 1
  else mkRat (Int.ofNat dg) (10 ^ (-s).toNat)

/-- Find the shortest decimal digit count `p` (starting from the given
one, up to the fuel) whose correctly rounded `p`-digit decimal rounds
back to the double `v`; 17 significant digits always round-trip, so the
final fallback is exact. This is the shortest round-trip search CPython's
float repr performs. -/
def shortestLoop (n d : Nat) (d10 : Int) (v : ℚ) : Nat → Nat → Nat × Int
  | 0, p => decimalCandidate n d d10 p
  | fuel + 1, p =>
    let c := decimalCandidate n d d10 p
    if roundToDouble (candidateValue c.fst c.snd) = some v then c
    else shortestLoop n d d10 v fuel (p + 1)

/-- A string of `n` zero digits. -/
def zerosStr (n : Nat) : String := String.mk (List.replicate n '0')

/-- CPython's repr of a finite double (given as its exact rational
value): the shortest decimal string that round-trips to the same double,
written in fixed notation when the decimal exponent lies in [-4, 16) —
with a trailing ".0" for integral values — and in scientific notation
(two-digit minimum exponent) otherwise. -/
def pyFloatRepr (v : ℚ) : String :=
  if v.num = 0 then "0.0"
  else
    let sign := if v.num < 0 then "-" else ""
    let n := v.num.natAbs
    let d := v.den
    let d10 := floorLog10Rat n d
    let mag : ℚ := mkRat (Int.ofNat n) d
    let c := shortestLoop n d d10 mag 16 1
    let digits := Nat.repr c.fst
    let e10 : Int := (digits.length : Int) - 1 + c.snd
    sign ++
      (if -4 ≤ e10 ∧ e10 < 16 then
        if 0 ≤ c.snd then digits ++ zerosStr c.snd.toNat ++ ".0"
        else if 0 ≤ e10 then
          let intLen := (e10 + 1).toNat
          String.mk (digits.data.take intLen) ++ "." ++ String.mk (digits.data.drop intLen)
        else "0." ++ zerosStr ((-e10).toNat - 1) ++ digits
      else
        let mantissa :=
          if digits.length = 1 then digits
          else String.mk (digits.data.take 1) ++ "." ++ String.mk (digits.data.drop 1)
        let esign := if 0 ≤ e10 then "+" else "-"
        let eabs := e10.natAbs
        let estr := if eabs < 10 then "0" ++ Nat.repr eabs else Nat.repr eabs
        mantissa ++ "e" ++ esign ++ estr)

/-- `divide` from `2_math-agent.ipynb`:
raises `ValueError("Cannot divide by zero")` when `b == 0` (the tool body
checks this before dividing), otherwise computes `a / b` — CPython int
true division, i.e. the correctly rounded IEEE-754 double of the exact
quotient, raising `OverflowError` ("integer division result too large for
a float") when the quotient exceeds the double range — and a summary
message "Dividing a by b gives result" rendering the double as CPython
repr does. Raised errors are modelled by `Except.error` carrying the
error text. -/
def divide (a b : Int) : Except String (String × ℚ) :=
  if b = 0 then Except.error "Cannot divide by zero"
  else
    match roundToDouble (Rat.divInt a b) with
    | none => Except.error "integer division result too large for a float"
    | some result =>
      Except.ok ("Dividing " ++ toString a ++ " by " ++ toString b ++ " gives " ++
        pyFloatRepr result, result)

/-- A registered tool: argument mapping in, either an error (schema
mismatch or a raised exception) or a `(content, artifact)` pair out. -/
abbrev ToolFn := Args → Except String (String × Artifact)

/-- Wrapper placing `add` behind its declared parameter schema
(`a`, `b`, both required integers). -/
def addTool : ToolFn := fun args =>
  match getArg args "a", getArg args "b" with
  | some a, some b => Except.ok ((add a b).fst, Artifact.intA (add a b).snd)
  | _, _ => Except.error "InvalidArgumentsError"

/-- Wrapper placing `multiply` behind its declared parameter schema. -/
def multiplyTool : ToolFn := fun args =>
  match getArg args "a", getArg args "b" with
  | some a, some b => Except.ok ((multiply a b).fst, Artifact.intA (multiply a b).snd)
  | _, _ => Except.error "InvalidArgumentsError"

/-- Wrapper placing `divide` behind its declared parameter schema; the
`ValueError` raised by the tool body propagates as the error text. -/
def divideTool : ToolFn := fun args =>
  match getArg args "a", getArg args "b" with
  | some a, some b =>
    match divide a b with
    | Except.ok r => Except.ok (r.fst, Artifact.ratA r.snd)
    | Except.error e => Except.error e
  | _, _ => Except.error "InvalidArgumentsError"

/-- A tool registry mapping tool name to callable. -/
abbrev Registry := String → Option ToolFn

/-- The registry built over `tools = [add, multiply, divide]` of
`2_math-agent.ipynb`: the mapping from each tool's name to the tool. -/
def tools_by_name : Registry := fun name =>
  if name = "add" then some addTool
  else if name = "multiply" then some multiplyTool
  else if name = "divide" then some divideTool
  else none

/-- The dispatcher's error taxonomy from the spec. An unknown tool name is
a hard failure; the other two variants are recorded for completeness but,
per the recoverable policy chosen here (matching the framework's tool
executor), argument and execution failures are converted into tool-result
messages instead. -/
inductive ToolError where
  | unknownToolError (name : String)
  | invalidArgumentsError (detail : String)
  | toolExecutionError (cause : String)
deriving DecidableEq, Repr

/-- Modelled from the spec: the Tool Registry/Dispatcher executing a single
requested call (the framework's tool executor is external; its contract is
spec section 4.1). Looks the tool up by name — failing hard with
`UnknownToolError` when absent — invokes it with the supplied arguments and
wraps the result as a tool-result message carrying the call identifier,
the human-readable summary as content and the raw secondary value as
artifact; a failing invocation is converted into a tool-result message
describing the failure (the recoverable policy). -/
def invokeTool (reg : Registry) (tc : ToolCall) : Except ToolError Message :=
  match reg tc.name with
  | none => Except.error (ToolError.unknownToolError tc.name)
  | some f =>
    match f tc.args with
    | Except.ok result => Except.ok (Message.toolResult result.fst tc.callId (some result.snd))
    | Except.error e =>
      Except.ok (Message.toolResult ("ToolExecutionError: " ++ e) tc.callId none)

/-- Modelled from the spec: the Dispatcher executing each requested call
synchronously in request order, producing one tool-result message per
call. -/
def dispatchCalls (reg : Registry) : List ToolCall → Except ToolError (List Message)
  | [] => Except.ok []
  | tc :: rest =>
    match invokeTool reg tc, dispatchCalls reg rest with
    | Except.ok m, Except.ok ms => Except.ok (m :: ms)
    | Except.error e, _ => Except.error e
    | Except.ok _, Except.error e => Except.error e

/-- Modelled from the spec and the `tool_node` sketch in
`2_math-agent.ipynb`: the tool-dispatch node reads the tool calls of the
latest (assistant) message of the state and returns the tool-result
messages to append. -/
def tool_node (reg : Registry) (msgs : List Message) : Except ToolError (List Message) :=
  match msgs.getLast? with
  | some (Message.assistant _ tcs) => dispatchCalls reg tcs
  | _ => Except.ok []

/-- Modelled from the spec: the `tools_condition` router — pure inspection
of the latest message of the conversation state; an assistant message with
a non-empty tool-call list routes to `"tools"`, anything else routes to
`"__end__"`. -/
def tools_condition (msgs : List Message) : String :=
  match msgs.getLast? with
  | some (Message.assistant _ (_ :: _)) => "tools"
  | _ => "__end__"

/-- The model-invocation capability: full message list in, one assistant
message (content and requested tool calls) out. External collaborator,
left abstract. -/
abbrev ModelFn := List Message → String × List ToolCall

/-- Modelled from the spec: the Loop Driver's state — the conversation
state plus the explicit step counter used for budget enforcement. -/
structure DriverState where
  messages : List Message
  stepCount : Nat

/-- Modelled from the spec: outcome of one Loop Driver run — normal
termination with the full conversation state, `StepBudgetExceededError`
with the partial conversation state attached, or a fatal dispatcher
error. -/
inductive RunResult where
  | done (messages : List Message)
  | stepBudgetExceededError (partialMessages : List Message)
  | fatalToolError (err : ToolError) (partialMessages : List Message)

/-- The conversation state carried by a run outcome. -/
def RunResult.messages : RunResult → List Message
  | RunResult.done m => m
  | RunResult.stepBudgetExceededError m => m
  | RunResult.fatalToolError _ m => m

/-- `llm_node` of `2_math-agent.ipynb`: invoke the model on the state and
append the one assistant message it returns. -/
def llm_node (model : ModelFn) (msgs : List Message) : List Message :=
  msgs ++ [Message.assistant (model msgs).fst (model msgs).snd]

/-- Modelled from the spec: the Loop Driver's INVOKE_MODEL /
DISPATCH_TOOLS cycle. Each iteration appends one assistant message, asks
the router, and either terminates (DONE) or appends the dispatched
tool-result messages and repeats with the explicit step counter
incremented; the counter reaching the configured budget fails with
`StepBudgetExceededError`. The structural fuel only realizes termination
of the recursion — `run` below supplies more fuel than the budget ever
allows to consume, so the budget check alone decides failure. -/
def runAux (model : ModelFn) (reg : Registry) (budget : Nat) :
    Nat → DriverState → RunResult
  | 0, st => RunResult.stepBudgetExceededError st.messages
  | fuel + 1, st =>
    if budget ≤ st.stepCount then RunResult.stepBudgetExceededError st.messages
    else
      let msgs1 := llm_node model st.messages
      if tools_condition msgs1 = "tools" then
        match tool_node reg msgs1 with
        | Except.ok results =>
          runAux model reg budget fuel ⟨msgs1 ++ results, st.stepCount + 1⟩
        | Except.error e => RunResult.fatalToolError e msgs1
      else
        RunResult.done msgs1

/-- Modelled from the spec: one Loop Driver run
`run(initial_messages) -> final_conversation_state`, starting at
INVOKE_MODEL with the step counter at zero. -/
def run (model : ModelFn) (reg : Registry) (step_budget : Nat)
    (init : List Message) : RunResult :=
  runAux model reg step_budget (step_budget + 1) ⟨init, 0⟩

/-- A document chunk held by the vector store: its metadata (as the
rendered mapping interpolated into the format string) and its page
content. -/
structure Chunk where
  metadata : String
  page_content : String
deriving DecidableEq, Repr

/-- The per-chunk block of the `retrieve` tool's formatted context in
`3_rag-agent.ipynb`, for the chunk numbered `i` (numbering starts at 1). -/
def formatChunk (numbered : Nat × Chunk) : String :=
  let i := numbered.fst
  let meta := numbered.snd.metadata
  let content := numbered.snd.page_content
  "## " ++ toString i ++ ". Retrieved Document Chunk\n\n### Chunk Metadata:\n" ++ meta ++
    "\n\n### Chunk Content:\n" ++ content

/-- The fixed instruction header of the `retrieve` tool's context message
(the dedented template of `3_rag-agent.ipynb` up to the context
placeholder). -/
def contextHeader : String :=
  "Use the following pieces of context retrieved from the documents to answer the question.\nIf you don\x27t have enough information to answer the question, say that you can\x27t answer it.\n\n# Context\n\n"

/-- Modelled from the spec: the external vector-similarity search
capability (`vector_store.max_marginal_relevance_search`) — given a query
string and a result count, it returns the ranked document chunks, at most
the requested count, in rank order. The ranking itself is the vector
database's concern and is left abstract. -/
def mmrSearch (ranking : String → List Chunk) (query : String) (k : Nat) : List Chunk :=
  (ranking query).take k

/-- `retrieve` from `3_rag-agent.ipynb`: search the vector store with
`k = 3`, format the retrieved chunks (numbered from 1, metadata then page
content) into a single context string behind the fixed instruction header,
and return the context message as content with the raw ranked chunk list
as artifact. -/
def retrieve (ranking : String → List Chunk) (query : String) : String × List Chunk :=
  let retrieved_chunks := mmrSearch ranking query 3
  let context := String.intercalate "\n\n" ((List.enumFrom 1 retrieved_chunks).map formatChunk)
  let context_message := contextHeader ++ context ++ "\n"
  (context_message, retrieved_chunks)

/-- A metadata value of a loaded PDF page: an integer (such as the page
number) or a string. -/
inductive MetaVal where
  | intV (n : Int)
  | strV (s : String)
deriving DecidableEq, Repr

/-- A page's metadata mapping, modelling the Python dict. -/
abbrev Metadata := String → Option MetaVal

/-- A loaded document page: metadata plus page content. -/
structure Page where
  metadata : Metadata
  page_content : String

/-- `metadata_to_remove` from `3_rag-agent.ipynb`. -/
def metadata_to_remove : List String := ["producer", "creator", "creationdate", "moddate"]

/-- `dict.pop(key, None)`: drop the key if present, leave the rest. -/
def popKey (m : Metadata) (key : String) : Metadata :=
  fun k => if k = key then none else m k

/-- The ingestion metadata-normalization step of `3_rag-agent.ipynb`
applied to one page: pop each key of `metadata_to_remove`, then, if the
metadata holds an integer `"page"` value, increment it by 1 (PyPDFLoader
indexes pages from 0). -/
def normalizePageMetadata (p : Page) : Page :=
  let m := metadata_to_remove.foldl popKey p.metadata
  let m2 : Metadata :=
    match m "page" with
    | some (MetaVal.intV n) => fun k => if k = "page" then some (MetaVal.intV (n + 1)) else m k
    | _ => m
  { metadata := m2, page_content := p.page_content }



/-- The textual content of a message (the part shown to the model). -/
def msgContent : Message → String
  | Message.system c => c
  | Message.human c => c
  | Message.assistant c _ => c
  | Message.toolResult c _ _ => c

/-- The artifact of a message (tool-result messages only). -/
def msgArtifact : Message → Option Artifact
  | Message.toolResult _ _ a => a
  | _ => none

/-- The originating call identifier of a tool-result message. -/
def msgCallId : Message → Option String
  | Message.toolResult _ cid _ => some cid
  | _ => none

/-- The tool-result message a successful dispatch of one call produces
(total companion of `invokeTool`; the fallback branch is unreachable for
registered tools). -/
def invokeMsg (reg : Registry) (tc : ToolCall) : Message :=
  match invokeTool reg tc with
  | Except.ok m => m
  | Except.error _ => Message.toolResult "" tc.callId none

/-- A model stub that answers a greeting directly, with no tool calls
(end-to-end scenario 2 of the spec). -/
def mathModelStop : ModelFn := fun _ => ("Hello! How can I help you?", [])

/-- A model stub that requests the same tool call forever (the runaway
tool-calling loop the step budget guards against). -/
def mathModelLoop : ModelFn :=
  fun _ => ("", [ToolCall.mk "add" [("a", 1), ("b", 1)] "call_loop"])

/-- Two concrete tool-call requests, as issued by the model in end-to-end
scenario 1 of the spec. -/
def tcsEx : List ToolCall :=
  [ToolCall.mk "add" [("a", 11), ("b", 53)] "call_1",
   ToolCall.mk "multiply" [("a", 64), ("b", 2)] "call_2"]

/-- A concrete loaded page: a 0-based page number, one removable metadata
key, one key to keep. -/
def pageEx : Page :=
  { metadata := fun k =>
      if k = "page" then some (MetaVal.intV 0)
      else if k = "producer" then some (MetaVal.strV "pdfgen")
      else if k = "source" then some (MetaVal.strV "doc.pdf")
      else none,
    page_content := "page text" }

lemma tools_condition_concat_nil (l : List Message) (c : String) :
    tools_condition (l ++ [Message.assistant c []]) = "__end__" := by
  simp [tools_condition, List.getLast?_concat]

lemma tools_condition_concat_cons (l : List Message) (c : String)
    (tc : ToolCall) (ts : List ToolCall) :
    tools_condition (l ++ [Message.assistant c (tc :: ts)]) = "tools" := by
  simp [tools_condition, List.getLast?_concat]

lemma tool_node_concat (reg : Registry) (l : List Message) (c : String)
    (tcs : List ToolCall) :
    tool_node reg (l ++ [Message.assistant c tcs]) = dispatchCalls reg tcs := by
  simp [tool_node, List.getLast?_concat]

lemma invokeTool_ok_of_registered (reg : Registry) (tc : ToolCall)
    (h : (reg tc.name).isSome) : ∃ m, invokeTool reg tc = Except.ok m := by
  rcases ho : reg tc.name with _ | f
  · rw [ho] at h; simp at h
  · rcases hf : f tc.args with e | r
    · exact ⟨Message.toolResult ("ToolExecutionError: " ++ e) tc.callId none,
        by simp [invokeTool, ho, hf]⟩
    · exact ⟨Message.toolResult r.fst tc.callId (some r.snd),
        by simp [invokeTool, ho, hf]⟩

lemma invokeMsg_callId (reg : Registry) (tc : ToolCall) :
    msgCallId (invokeMsg reg tc) = some tc.callId := by
  rcases ho : reg tc.name with _ | f
  · simp [invokeMsg, invokeTool, ho, msgCallId]
  · rcases hf : f tc.args with e | r
    · simp [invokeMsg, invokeTool, ho, hf, msgCallId]
    · simp [invokeMsg, invokeTool, ho, hf, msgCallId]

lemma invokeTool_eq_invokeMsg (reg : Registry) (tc : ToolCall) (m : Message)
    (h : invokeTool reg tc = Except.ok m) : invokeMsg reg tc = m := by
  simp [invokeMsg, h]

lemma dispatchCalls_eq_map (reg : Registry) (tcs : List ToolCall)
    (h : ∀ tc ∈ tcs, (reg tc.name).isSome) :
    dispatchCalls reg tcs = Except.ok (tcs.map (invokeMsg reg)) := by
  induction tcs with
  | nil => simp [dispatchCalls]
  | cons tc rest ih =>
    obtain ⟨m, hm⟩ := invokeTool_ok_of_registered reg tc (h tc (List.mem_cons_self tc rest))
    have hrest := ih (fun x hx => h x (List.mem_cons_of_mem tc hx))
    simp [dispatchCalls, hm, hrest, invokeTool_eq_invokeMsg reg tc m hm]

lemma invokeTool_ok_shape (reg : Registry) (tc : ToolCall) (m : Message)
    (h : invokeTool reg tc = Except.ok m) :
    ∃ f, reg tc.name = some f ∧
      ((∃ r, f tc.args = Except.ok r ∧
          m = Message.toolResult r.fst tc.callId (some r.snd)) ∨
        (∃ e, f tc.args = Except.error e ∧
          m = Message.toolResult ("ToolExecutionError: " ++ e) tc.callId none)) := by
  rcases ho : reg tc.name with _ | f
  · simp only [invokeTool, ho] at h
    exact absurd h (by simp)
  · refine ⟨f, rfl, ?_⟩
    rcases hf : f tc.args with e | r
    · simp only [invokeTool, ho, hf, Except.ok.injEq] at h
      exact Or.inr ⟨e, rfl, h.symm⟩
    · simp only [invokeTool, ho, hf, Except.ok.injEq] at h
      exact Or.inl ⟨r, rfl, h.symm⟩

/-- C4: the router is a pure function of the latest message of the
conversation state: a latest assistant message with a non-empty tool-call
list routes to the "tools" (continue) branch, every other latest message
routes to the "__end__" (stop) branch, and the routing decision depends on
nothing but the latest message (in particular the state is not mutated —
the router is a plain function of the state). -/
theorem router_routes_on_latest_message :
    (∀ (msgs : List Message) (c : String) (tc : ToolCall) (ts : List ToolCall),
      msgs.getLast? = some (Message.assistant c (tc :: ts)) →
      tools_condition msgs = "tools") ∧
    (∀ msgs : List Message,
      (∀ c tcs, msgs.getLast? = some (Message.assistant c tcs) → tcs = []) →
      tools_condition msgs = "__end__") ∧
    (∀ msgs1 msgs2 : List Message, msgs1.getLast? = msgs2.getLast? →
      tools_condition msgs1 = tools_condition msgs2) := by
  refine ⟨?_, ?_, ?_⟩
  · intro msgs c tc ts h
    simp [tools_condition, h]
  · intro msgs h
    unfold tools_condition
    rcases hl : msgs.getLast? with _ | m
    · rfl
    · cases m with
      | assistant c tcs =>
        cases tcs with
        | nil => rfl
        | cons tc ts => exact absurd (h c (tc :: ts) hl) (by simp)
      | system c => rfl
      | human c => rfl
      | toolResult c cid a => rfl
  · intro msgs1 msgs2 h
    unfold tools_condition
    rw [h]

theorem router_routes_on_latest_message_witness :
    tools_condition [Message.assistant "" [ToolCall.mk "add" [("a", 1), ("b", 2)] "c1"]] =
      "tools" ∧
    tools_condition [Message.human "Hi!"] = "__end__" := by
  have h := router_routes_on_latest_message
  exact ⟨h.1 _ "" (ToolCall.mk "add" [("a", 1), ("b", 2)] "c1") [] rfl,
    h.2.1 _ (by intro c tcs hc; simp at hc)⟩

/-- C5 counterexample: the original claim's "artifact the exact quotient
a/b" fails on the code — CPython float true division rounds, so
divide(1, 3) returns the double 6004799503160661 / 2 ^ 54 (printed as its
shortest round-trip repr "0.3333333333333333"), which is not the exact
rational 1/3. -/
theorem exact_quotient_counterexample :
    divide 1 3 = Except.ok ("Dividing 1 by 3 gives 0.3333333333333333",
      mkRat 6004799503160661 18014398509481984) ∧
    mkRat 6004799503160661 18014398509481984 ≠ Rat.divInt 1 3 ∧
    Rat.divInt 1 3 = (1 : ℚ) / 3 :=
  ⟨by decide, by decide, Rat.divInt_eq_div 1 3⟩

/-- C5 (amended): `add` returns the sum with its summary message,
`multiply` the product with its summary message; for a non-zero divisor
whose quotient is within double range, `divide` returns the IEEE-754
binary64 value nearest to the exact quotient a/b — equal to a/b exactly
when the quotient is representable, as in the scenario — with content the
summary string rendering that double as Python repr; on the concrete
chain of end-to-end scenario 1 the artifacts are 64, 128 and 8.0. -/
theorem math_tools_compute_correctly :
    (∀ a b : Int,
      add a b = ("Adding " ++ toString a ++ " and " ++ toString b ++ " gives " ++
        toString (a + b), a + b) ∧
      multiply a b = ("Multiplying " ++ toString a ++ " and " ++ toString b ++ " gives " ++
        toString (a * b), a * b)) ∧
    (∀ a b : Int, Rat.divInt a b = (a : ℚ) / (b : ℚ)) ∧
    (∀ a b : Int, b ≠ 0 → ∀ q, roundToDouble (Rat.divInt a b) = some q →
      divide a b = Except.ok ("Dividing " ++ toString a ++ " by " ++ toString b ++
        " gives " ++ pyFloatRepr q, q)) ∧
    (add 11 53).snd = 64 ∧ (multiply 64 2).snd = 128 ∧
    divide 128 16 = Except.ok ("Dividing 128 by 16 gives 8.0", 8) ∧
    roundToDouble (Rat.divInt 128 16) = some (Rat.divInt 128 16) := by
  refine ⟨fun a b => ⟨rfl, rfl⟩, fun a b => Rat.divInt_eq_div a b, ?_,
    by decide, by decide, by decide, by decide⟩
  intro a b hb q hq
  simp only [divide, if_neg hb, hq]

theorem math_tools_compute_correctly_witness :
    (16 : Int) ≠ 0 ∧
    divide 128 16 = Except.ok ("Dividing " ++ toString (128 : Int) ++ " by " ++
      toString (16 : Int) ++ " gives " ++ pyFloatRepr 8, 8) :=
  ⟨by decide, math_tools_compute_correctly.2.2.1 128 16 (by decide) 8 (by decide)⟩

/-- C6 counterexample: the original claim's "for b nonzero it never
raises" fails on the code — CPython int true division raises
OverflowError ("integer division result too large for a float") when the
quotient exceeds the double range, as divide(10 ^ 400, 1) does despite
b = 1 ≠ 0. -/
theorem divide_nonzero_raises_counterexample :
    (1 : Int) ≠ 0 ∧
    divide (10 ^ 400) 1 = Except.error "integer division result too large for a float" :=
  ⟨by decide, by decide⟩

/-- C6 (amended): the `divide` tool body raises the "Cannot divide by
zero" error when and only when the divisor is zero; for a non-zero
divisor it raises only OverflowError, precisely when the exact quotient
rounds outside the double range, and succeeds otherwise; and under the
dispatcher every raise is converted into a recoverable tool-result
message describing the failure, never an unhandled fault that crashes the
loop. -/
theorem divide_by_zero_recoverable (a : Int) :
    divide a 0 = Except.error "Cannot divide by zero" ∧
    (∀ b : Int, b ≠ 0 → divide a b ≠ Except.error "Cannot divide by zero") ∧
    (∀ b : Int, b ≠ 0 → ∀ q, roundToDouble (Rat.divInt a b) = some q →
      ∃ msg, divide a b = Except.ok (msg, q)) ∧
    (∀ b : Int, b ≠ 0 → roundToDouble (Rat.divInt a b) = none →
      divide a b = Except.error "integer division result too large for a float") ∧
    (∀ cid : String,
      invokeTool tools_by_name (ToolCall.mk "divide" [("a", a), ("b", 0)] cid) =
        Except.ok (Message.toolResult "ToolExecutionError: Cannot divide by zero" cid none)) ∧
    (∀ (b : Int) (cid : String), b ≠ 0 → ∃ content artifact,
      invokeTool tools_by_name (ToolCall.mk "divide" [("a", a), ("b", b)] cid) =
        Except.ok (Message.toolResult content cid artifact)) := by
  refine ⟨by simp [divide], ?_, ?_, ?_, fun cid => rfl, ?_⟩
  · intro b hb
    simp only [divide, if_neg hb]
    rcases hr : roundToDouble (Rat.divInt a b) with _ | q
    · intro hc
      injection hc with hc
      exact absurd hc (by decide)
    · intro hc
      exact absurd hc (by simp)
  · intro b hb q hq
    exact ⟨"Dividing " ++ toString a ++ " by " ++ toString b ++ " gives " ++ pyFloatRepr q,
      by simp only [divide, if_neg hb, hq]⟩
  · intro b hb hq
    simp only [divide, if_neg hb, hq]
  · intro b cid hb
    have hdt : divideTool [("a", a), ("b", b)] =
        match divide a b with
        | Except.ok r => Except.ok (r.fst, Artifact.ratA r.snd)
        | Except.error e => Except.error e := rfl
    have htbn : tools_by_name "divide" = some divideTool := rfl
    rcases hr : divide a b with e | r
    · refine ⟨"ToolExecutionError: " ++ e, none, ?_⟩
      rw [hr] at hdt
      simp only [invokeTool, htbn, hdt]
    · refine ⟨r.fst, some (Artifact.ratA r.snd), ?_⟩
      rw [hr] at hdt
      simp only [invokeTool, htbn, hdt]

theorem divide_by_zero_recoverable_witness :
    divide 128 0 = Except.error "Cannot divide by zero" ∧
    divide 128 16 ≠ Except.error "Cannot divide by zero" ∧
    (∃ msg, divide 128 16 = Except.ok (msg, 8)) ∧
    divide (10 ^ 400) 1 = Except.error "integer division result too large for a float" ∧
    invokeTool tools_by_name (ToolCall.mk "divide" [("a", 128), ("b", 0)] "call_z") =
      Except.ok (Message.toolResult "ToolExecutionError: Cannot divide by zero" "call_z" none) ∧
    (∃ content artifact,
      invokeTool tools_by_name (ToolCall.mk "divide" [("a", 128), ("b", 16)] "call_y") =
        Except.ok (Message.toolResult content "call_y" artifact)) :=
  ⟨(divide_by_zero_recoverable 128).1,
    (divide_by_zero_recoverable 128).2.1 16 (by decide),
    (divide_by_zero_recoverable 128).2.2.1 16 (by decide) 8 (by decide),
    (divide_by_zero_recoverable (10 ^ 400)).2.2.2.1 1 (by decide) (by decide),
    (divide_by_zero_recoverable 128).2.2.2.2.1 "call_z",
    (divide_by_zero_recoverable 128).2.2.2.2.2 16 "call_y" (by decide)⟩

/-- C7: dispatching a pure tool is deterministic and idempotent — two
invocations with the same tool name and arguments produce identical
content and identical artifact — and invoking `add` with a = 11, b = 53
always yields content "Adding 11 and 53 gives 64" and artifact 64. -/
theorem dispatcher_pure_tool_deterministic :
    (∀ (reg : Registry) (tc1 tc2 : ToolCall) (m1 m2 : Message),
      tc1.name = tc2.name → tc1.args = tc2.args →
      invokeTool reg tc1 = Except.ok m1 → invokeTool reg tc2 = Except.ok m2 →
      msgContent m1 = msgContent m2 ∧ msgArtifact m1 = msgArtifact m2) ∧
    (∀ cid : String,
      invokeTool tools_by_name (ToolCall.mk "add" [("a", 11), ("b", 53)] cid) =
        Except.ok (Message.toolResult "Adding 11 and 53 gives 64" cid
          (some (Artifact.intA 64)))) := by
  constructor
  · intro reg tc1 tc2 m1 m2 hn ha h1 h2
    obtain ⟨f1, ho1, hc1⟩ := invokeTool_ok_shape reg tc1 m1 h1
    obtain ⟨f2, ho2, hc2⟩ := invokeTool_ok_shape reg tc2 m2 h2
    rw [hn, ho2] at ho1
    injection ho1 with hf12
    rw [← ha, hf12] at hc2
    rcases hc1 with ⟨r1, hr1, hm1⟩ | ⟨e1, he1, hm1⟩ <;>
      rcases hc2 with ⟨r2, hr2, hm2⟩ | ⟨e2, he2, hm2⟩
    · rw [hr1] at hr2
      injection hr2 with hr
      rw [hm1, hm2, hr]
      exact ⟨rfl, rfl⟩
    · rw [hr1] at he2
      exact absurd he2 (by simp)
    · rw [he1] at hr2
      exact absurd hr2 (by simp)
    · rw [he1] at he2
      injection he2 with he
      rw [hm1, hm2, he]
      exact ⟨rfl, rfl⟩
  · intro cid
    rfl

theorem dispatcher_pure_tool_deterministic_witness :
    invokeTool tools_by_name (ToolCall.mk "add" [("a", 11), ("b", 53)] "call_a") =
      Except.ok (Message.toolResult "Adding 11 and 53 gives 64" "call_a"
        (some (Artifact.intA 64))) ∧
    msgContent (Message.toolResult "Adding 11 and 53 gives 64" "call_a"
        (some (Artifact.intA 64))) =
      msgContent (Message.toolResult "Adding 11 and 53 gives 64" "call_b"
        (some (Artifact.intA 64))) :=
  ⟨dispatcher_pure_tool_deterministic.2 "call_a",
    (dispatcher_pure_tool_deterministic.1 tools_by_name
      (ToolCall.mk "add" [("a", 11), ("b", 53)] "call_a")
      (ToolCall.mk "add" [("a", 11), ("b", 53)] "call_b") _ _ rfl rfl
      (dispatcher_pure_tool_deterministic.2 "call_a")
      (dispatcher_pure_tool_deterministic.2 "call_b")).1⟩

/-- C8: for every query, `retrieve` returns as artifact the raw ranked
chunk list produced by the search — at most k = 3 chunks, a rank-order
prefix of the store's ranking — and as content the fixed instruction
header followed by the formatted concatenation of exactly those chunks in
rank order, numbered from 1. -/
theorem retrieve_formats_ranked_chunks (ranking : String → List Chunk) (query : String) :
    (retrieve ranking query).snd = mmrSearch ranking query 3 ∧
    (retrieve ranking query).snd.length ≤ 3 ∧
    (retrieve ranking query).snd <+: ranking query ∧
    (retrieve ranking query).fst =
      contextHeader ++
        String.intercalate "\n\n"
          ((List.enumFrom 1 (retrieve ranking query).snd).map formatChunk) ++ "\n" := by
  refine ⟨rfl, ?_, ?_, rfl⟩
  · simp only [retrieve, mmrSearch]
    exact List.length_take_le 3 (ranking query)
  · simp only [retrieve, mmrSearch]
    exact List.take_prefix 3 (ranking query)

/-- C1: when the latest assistant message requests N tool calls (each
naming a registered tool), the dispatch step produces exactly N
tool-result messages, one per requested call in request order; the i-th
result carries the i-th call's identifier with the tool's summary string
as content and its raw secondary value as artifact, and (given distinct
request identifiers) each result's call identifier matches exactly one
request of that assistant message. -/
theorem dispatcher_one_result_per_call (reg : Registry) (tcs : List ToolCall)
    (hreg : ∀ tc ∈ tcs, (reg tc.name).isSome) :
    ∃ results, dispatchCalls reg tcs = Except.ok results ∧
      (∀ (l : List Message) (c : String),
        tool_node reg (l ++ [Message.assistant c tcs]) = Except.ok results) ∧
      results.length = tcs.length ∧
      (∀ i (hi : i < tcs.length), ∀ f content art,
        reg (tcs.get ⟨i, hi⟩).name = some f →
        f (tcs.get ⟨i, hi⟩).args = Except.ok (content, art) →
        results[i]? = some (Message.toolResult content (tcs.get ⟨i, hi⟩).callId (some art))) ∧
      ((tcs.map ToolCall.callId).Nodup →
        ∀ m ∈ results, ∃ cid, msgCallId m = some cid ∧
          (tcs.filter (fun tc => tc.callId == cid)).length = 1) := by
  refine ⟨tcs.map (invokeMsg reg), dispatchCalls_eq_map reg tcs hreg, ?_, by simp, ?_, ?_⟩
  · intro l c
    rw [tool_node_concat]
    exact dispatchCalls_eq_map reg tcs hreg
  · intro i hi f content art ho hf
    have hok : invokeTool reg (tcs.get ⟨i, hi⟩) =
        Except.ok (Message.toolResult content (tcs.get ⟨i, hi⟩).callId (some art)) := by
      simp only [invokeTool, ho, hf]
    have hmsg := invokeTool_eq_invokeMsg reg (tcs.get ⟨i, hi⟩) _ hok
    rw [List.getElem?_map, List.getElem?_eq_getElem hi]
    simp only [Option.map_some']
    rw [show tcs[i] = tcs.get ⟨i, hi⟩ from rfl, hmsg]
  · intro hnd m hm
    obtain ⟨tc, htc, rfl⟩ := List.mem_map.mp hm
    refine ⟨tc.callId, invokeMsg_callId reg tc, ?_⟩
    have hmem : tc.callId ∈ tcs.map ToolCall.callId := List.mem_map_of_mem _ htc
    have hcount := List.count_eq_one_of_mem hnd hmem
    have hfc : (tcs.filter (fun x => x.callId == tc.callId)).length =
        (tcs.map ToolCall.callId).count tc.callId := by
      rw [List.count, List.countP_map, ← List.countP_eq_length_filter]
      rfl
    rw [hfc, hcount]

theorem dispatcher_one_result_per_call_witness :
    ∃ results, dispatchCalls tools_by_name tcsEx = Except.ok results ∧
      results.length = tcsEx.length ∧
      results[0]? = some (Message.toolResult "Adding 11 and 53 gives 64" "call_1"
        (some (Artifact.intA 64))) := by
  obtain ⟨results, h1, h2, h3, h4, h5⟩ :=
    dispatcher_one_result_per_call tools_by_name tcsEx (by decide)
  refine ⟨results, h1, h3, ?_⟩
  exact h4 0 (by decide) addTool "Adding 11 and 53 gives 64" (Artifact.intA 64) rfl rfl

lemma runAux_done_last (model : ModelFn) (reg : Registry) (budget : Nat) :
    ∀ (fuel : Nat) (st : DriverState) (final : List Message),
      runAux model reg budget fuel st = RunResult.done final →
      ∃ content, final.getLast? = some (Message.assistant content []) := by
  intro fuel
  induction fuel with
  | zero =>
    intro st final h
    exact absurd h (by simp [runAux])
  | succ f ih =>
    intro st final h
    simp only [runAux] at h
    by_cases hb : budget ≤ st.stepCount
    · rw [if_pos hb] at h
      exact absurd h (by simp)
    · rw [if_neg hb] at h
      rcases hmodel : model st.messages with ⟨c, tcs⟩
      simp only [llm_node, hmodel] at h
      cases tcs with
      | nil =>
        rw [tools_condition_concat_nil, if_neg (by decide)] at h
        injection h with h
        exact ⟨c, by rw [← h]; exact List.getLast?_concat _⟩
      | cons t ts =>
        rw [tools_condition_concat_cons, if_pos rfl] at h
        rcases htn : tool_node reg (st.messages ++ [Message.assistant c (t :: ts)])
          with e | results
        · rw [htn] at h
          exact absurd h (by simp)
        · rw [htn] at h
          exact ih _ _ h

/-- C2: when a run of the ReAct loop terminates normally (reaches DONE),
the final message of the resulting conversation state is an assistant
message with an empty tool-call list. -/
theorem normal_termination_final_message (model : ModelFn) (reg : Registry)
    (budget : Nat) (init final : List Message)
    (h : run model reg budget init = RunResult.done final) :
    ∃ content, final.getLast? = some (Message.assistant content []) :=
  runAux_done_last model reg budget (budget + 1) ⟨init, 0⟩ final h

theorem normal_termination_final_message_witness :
    ∃ content,
      ([Message.human "Hi!", Message.assistant "Hello! How can I help you?" []]
          : List Message).getLast? = some (Message.assistant content []) :=
  normal_termination_final_message mathModelStop tools_by_name 25 [Message.human "Hi!"]
    [Message.human "Hi!", Message.assistant "Hello! How can I help you?" []] rfl

lemma runAux_budget_exceeded (model : ModelFn) (reg : Registry) (budget : Nat)
    (hm : ∀ msgs, (model msgs).snd ≠ [])
    (hreg : ∀ msgs, ∀ tc ∈ (model msgs).snd, (reg tc.name).isSome) :
    ∀ (fuel : Nat) (st : DriverState),
      ∃ p, runAux model reg budget fuel st = RunResult.stepBudgetExceededError p := by
  intro fuel
  induction fuel with
  | zero =>
    intro st
    exact ⟨st.messages, by simp [runAux]⟩
  | succ f ih =>
    intro st
    by_cases hb : budget ≤ st.stepCount
    · exact ⟨st.messages, by simp [runAux, hb]⟩
    · rcases hmodel : model st.messages with ⟨c, tcs⟩
      cases tcs with
      | nil =>
        have hne := hm st.messages
        rw [hmodel] at hne
        exact absurd rfl hne
      | cons t ts =>
        have hok : ∀ tc ∈ t :: ts, (reg tc.name).isSome := by
          intro tc htc
          exact hreg st.messages tc (by rw [hmodel]; exact htc)
        obtain ⟨p, hp⟩ := ih ⟨(st.messages ++ [Message.assistant c (t :: ts)]) ++
          (t :: ts).map (invokeMsg reg), st.stepCount + 1⟩
        refine ⟨p, ?_⟩
        simp only [runAux, if_neg hb, llm_node, hmodel]
        rw [tools_condition_concat_cons, if_pos rfl]
        rw [tool_node_concat, dispatchCalls_eq_map reg (t :: ts) hok]
        exact hp

/-- C3: a run whose model keeps requesting (registered) tool calls — so
the INVOKE_MODEL / DISPATCH_TOOLS cycle repeats past the configured
ceiling — fails with `StepBudgetExceededError`; in the Loop Driver model
the ceiling is enforced by the explicit `stepCount` counter of
`DriverState` being compared against the budget, not by exhausting a
recursion limit. -/
theorem step_budget_enforced (model : ModelFn) (reg : Registry) (budget : Nat)
    (init : List Message)
    (hm : ∀ msgs, (model msgs).snd ≠ [])
    (hreg : ∀ msgs, ∀ tc ∈ (model msgs).snd, (reg tc.name).isSome) :
    ∃ p, run model reg budget init = RunResult.stepBudgetExceededError p :=
  runAux_budget_exceeded model reg budget hm hreg (budget + 1) ⟨init, 0⟩

theorem step_budget_enforced_witness :
    ∃ p, run mathModelLoop tools_by_name 2 [Message.human "loop forever"] =
      RunResult.stepBudgetExceededError p :=
  step_budget_enforced mathModelLoop tools_by_name 2 [Message.human "loop forever"]
    (fun _ => by simp [mathModelLoop])
    (fun msgs tc htc => by
      simp only [mathModelLoop, List.mem_singleton] at htc
      rw [htc]
      decide)

/-- C9: the conversation state is append-only — the model-invocation step
appends exactly one assistant message (the input state is a prefix of its
output), every Loop Driver iteration only extends the state, and the
full state any run returns (normal or failed) has the initial messages as
a prefix, unmodified and in order. -/
theorem conversation_state_append_only :
    (∀ (model : ModelFn) (msgs : List Message), msgs <+: llm_node model msgs) ∧
    (∀ (model : ModelFn) (reg : Registry) (budget fuel : Nat) (st : DriverState),
      st.messages <+: (runAux model reg budget fuel st).messages) ∧
    (∀ (model : ModelFn) (reg : Registry) (budget : Nat) (init : List Message),
      init <+: (run model reg budget init).messages) := by
  have hstep : ∀ (model : ModelFn) (msgs : List Message), msgs <+: llm_node model msgs :=
    fun model msgs => List.prefix_append _ _
  have haux : ∀ (model : ModelFn) (reg : Registry) (budget fuel : Nat) (st : DriverState),
      st.messages <+: (runAux model reg budget fuel st).messages := by
    intro model reg budget fuel
    induction fuel with
    | zero =>
      intro st
      simp [runAux, RunResult.messages]
    | succ f ih =>
      intro st
      simp only [runAux]
      by_cases hb : budget ≤ st.stepCount
      · simp [hb, RunResult.messages]
      · simp only [if_neg hb]
        by_cases ht : tools_condition (llm_node model st.messages) = "tools"
        · simp only [if_pos ht]
          rcases htn : tool_node reg (llm_node model st.messages) with e | results
          · simp only [RunResult.messages]
            exact hstep model st.messages
          · exact (hstep model st.messages).trans
              ((List.prefix_append _ results).trans
                (ih ⟨llm_node model st.messages ++ results, st.stepCount + 1⟩))
        · simp only [if_neg ht, RunResult.messages]
          exact hstep model st.messages
  exact ⟨hstep, haux,
    fun model reg budget init => haux model reg budget (budget + 1) ⟨init, 0⟩⟩

lemma foldl_popKey_eval (m0 : Metadata) (k : String) :
    (metadata_to_remove.foldl popKey m0) k =
      if k = "producer" ∨ k = "creator" ∨ k = "creationdate" ∨ k = "moddate"
      then none else m0 k := by
  show (popKey (popKey (popKey (popKey m0 "producer") "creator") "creationdate") "moddate") k =
    _
  by_cases h1 : k = "producer" <;> by_cases h2 : k = "creator" <;>
    by_cases h3 : k = "creationdate" <;> by_cases h4 : k = "moddate" <;>
    simp [popKey, h1, h2, h3, h4]

lemma foldl_popKey_page (m0 : Metadata) :
    (metadata_to_remove.foldl popKey m0) "page" = m0 "page" := by
  rw [foldl_popKey_eval, if_neg (by decide)]

/-- C10: the ingestion metadata-normalization step removes exactly the
keys "producer", "creator", "creationdate" and "moddate" when present,
increments an integer "page" value by exactly 1 (0-based to 1-based), and
leaves every other metadata field — and the page content — unchanged. -/
theorem metadata_normalization_frame (p : Page) :
    (normalizePageMetadata p).page_content = p.page_content ∧
    (∀ k ∈ metadata_to_remove, (normalizePageMetadata p).metadata k = none) ∧
    (∀ n : Int, p.metadata "page" = some (MetaVal.intV n) →
      (normalizePageMetadata p).metadata "page" = some (MetaVal.intV (n + 1))) ∧
    (∀ s : String, p.metadata "page" = some (MetaVal.strV s) →
      (normalizePageMetadata p).metadata "page" = some (MetaVal.strV s)) ∧
    (p.metadata "page" = none → (normalizePageMetadata p).metadata "page" = none) ∧
    (∀ k, k ∉ metadata_to_remove → k ≠ "page" →
      (normalizePageMetadata p).metadata k = p.metadata k) := by
  refine ⟨rfl, ?_, ?_, ?_, ?_, ?_⟩
  · intro k hk
    have hknp : ¬(k = "page") := by
      simp only [metadata_to_remove, List.mem_cons, List.mem_singleton,
        List.not_mem_nil, or_false] at hk
      rcases hk with rfl | rfl | rfl | rfl <;> decide
    have hkin : (metadata_to_remove.foldl popKey p.metadata) k = none := by
      rw [foldl_popKey_eval, if_pos]
      simpa [metadata_to_remove] using hk
    simp only [normalizePageMetadata]
    rcases hp : (metadata_to_remove.foldl popKey p.metadata) "page" with _ | v
    · exact hkin
    · cases v with
      | intV n => simp only [if_neg hknp]; exact hkin
      | strV s => exact hkin
  · intro n hn
    have hp : (metadata_to_remove.foldl popKey p.metadata) "page" = some (MetaVal.intV n) := by
      rw [foldl_popKey_page]; exact hn
    simp only [normalizePageMetadata, hp]
    simp
  · intro s hs
    have hp : (metadata_to_remove.foldl popKey p.metadata) "page" = some (MetaVal.strV s) := by
      rw [foldl_popKey_page]; exact hs
    simp only [normalizePageMetadata, hp]
  · intro hnone
    have hp : (metadata_to_remove.foldl popKey p.metadata) "page" = none := by
      rw [foldl_popKey_page]; exact hnone
    simp only [normalizePageMetadata, hp]
  · intro k hk hkp
    have hkeep : (metadata_to_remove.foldl popKey p.metadata) k = p.metadata k := by
      rw [foldl_popKey_eval, if_neg]
      simpa [metadata_to_remove] using hk
    simp only [normalizePageMetadata]
    rcases hp : (metadata_to_remove.foldl popKey p.metadata) "page" with _ | v
    · exact hkeep
    · cases v with
      | intV n => simp only [if_neg hkp]; exact hkeep
      | strV s => exact hkeep

theorem metadata_normalization_frame_witness :
    (normalizePageMetadata pageEx).metadata "page" = some (MetaVal.intV 1) ∧
    (normalizePageMetadata pageEx).metadata "producer" = none ∧
    (normalizePageMetadata pageEx).metadata "source" = some (MetaVal.strV "doc.pdf") ∧
    (normalizePageMetadata pageEx).page_content = "page text" := by
  have h := metadata_normalization_frame pageEx
  refine ⟨?_, h.2.1 "producer" (by decide), ?_, h.1.trans rfl⟩
  · have := h.2.2.1 0 (by decide)
    simpa using this
  · exact (h.2.2.2.2.2 "source" (by decide) (by decide)).trans (by decide)
